import Mathlib

/-!
Verification of the EPUB structure checker (`detect_no_toc.py` and
`check_copyright_toc.py`): a shallow embedding of its path algebra,
TOC classification and copyright-candidate selection, with theorems
settling the specification's claims about them.

Strings are handled ASCII-faithfully: Python's `str.lower`, `str.strip`,
substring membership and `urllib.parse.unquote` are modelled character by
character (percent-escapes are decoded at byte level, which coincides with
Python for ASCII results).  `pathlib.PurePosixPath` is modelled by `PPath`
below, validated against CPython's behaviour on roots, `'.'` segments,
repeated slashes, `parent`, `/`-joining, `parts` and `name`.
-/

namespace EpubCheck

/-- ASCII lower-casing of a character, as Python `str.lower` acts on ASCII. -/
def lowerChar (c : Char) : Char :=
  if 'A' ≤ c ∧ c ≤ 'Z' then Char.ofNat (c.toNat + 32) else c

/-- Python `s.lower()` (ASCII fragment). -/
def lowerStr (s : String) : String :=
  String.mk (s.toList.map lowerChar)

/-- Whitespace stripped by Python `str.strip` (ASCII fragment). -/
def isSpaceChar (c : Char) : Bool :=
  [' ', '\t', '\n', '\r'].contains c

/-- Python `s.strip()` (ASCII fragment). -/
def stripStr (s : String) : String :=
  String.mk (((s.toList.dropWhile isSpaceChar).reverse.dropWhile isSpaceChar).reverse)

/-- `List.isPrefixOf` as an executable helper on characters. -/
def prefixOf : List Char → List Char → Bool
  | [], _ => true
  | _ :: _, [] => false
  | p :: ps, c :: cs => p == c && prefixOf ps cs

/-- Python substring membership `pat in s` on character lists. -/
def containsSubList (s pat : List Char) : Bool :=
  match s with
  | [] => pat == []
  | _ :: rest => prefixOf pat s || containsSubList rest pat

/-- Python substring membership `pat in s`. -/
def containsSub (s pat : String) : Bool :=
  containsSubList s.toList pat.toList

/-- Python `s.endswith(suf)`. -/
def endsWith (s suf : String) : Bool :=
  prefixOf suf.toList.reverse s.toList.reverse

/-- Hexadecimal digit value, as accepted by `urllib.parse.unquote`. -/
def hexVal (c : Char) : Option Nat :=
  if '0' ≤ c ∧ c ≤ '9' then some (c.toNat - '0'.toNat)
  else if 'a' ≤ c ∧ c ≤ 'f' then some (c.toNat - 'a'.toNat + 10)
  else if 'A' ≤ c ∧ c ≤ 'F' then some (c.toNat - 'A'.toNat + 10)
  else none

/-- Core of `urllib.parse.unquote`: decode `%XX` escapes byte-wise; an
invalid escape leaves the `%` in place and decoding resumes right after it. -/
def unquoteList : List Char → List Char
  | [] => []
  | '%' :: c₁ :: c₂ :: rest =>
    match hexVal c₁, hexVal c₂ with
    | some h₁, some h₂ => Char.ofNat (16 * h₁ + h₂) :: unquoteList rest
    | _, _ => '%' :: unquoteList (c₁ :: c₂ :: rest)
  | c :: rest => c :: unquoteList rest

/-- Python `urllib.parse.unquote` (byte-level model, exact on ASCII escapes). -/
def unquote (s : String) : String :=
  String.mk (unquoteList s.toList)

/-- Model of `pathlib.PurePosixPath`: a root marker (`0` relative, `1` a
single leading `/`, `2` the special double-slash root) and the retained
segments (empty and `'.'` segments are dropped on parsing, `'..'` is kept). -/
structure PPath where
  root : Nat
  segs : List String
deriving DecidableEq, Repr

/-- Split a character list on `/`. -/
def splitSlash : List Char → List (List Char)
  | [] => [[]]
  | '/' :: rest => [] :: splitSlash rest
  | c :: rest =>
    match splitSlash rest with
    | [] => [[c]]
    | seg :: segz => (c :: seg) :: segz

/-- Number of leading `/` characters. -/
def leadSlashes : List Char → Nat
  | '/' :: rest => leadSlashes rest + 1
  | _ => 0

/-- `PurePosixPath(s)`: determine the root marker and keep the non-empty,
non-`'.'` segments. -/
def ppParse (s : String) : PPath :=
  let cs := s.toList
  let n := leadSlashes cs
  let root := if n = 0 then 0 else if n = 2 then 2 else 1
  let segs := ((splitSlash cs).map String.mk).filter (fun t => t ≠ "" ∧ t ≠ ".")
  ⟨root, segs⟩

/-- Join a list of segments with `/` (Python `'/'.join`). -/
def joinSlash : List String → String
  | [] => ""
  | [s] => s
  | s :: rest => s ++ "/" ++ joinSlash rest

/-- `PurePosixPath.as_posix()`. -/
def ppAsPosix (p : PPath) : String :=
  if p.root = 0 then (if p.segs = [] then "." else joinSlash p.segs)
  else if p.root = 2 then "//" ++ joinSlash p.segs
  else "/" ++ joinSlash p.segs

/-- `PurePosixPath.parent`: drop the last segment; the parent of `'.'` and
of the bare roots is themselves. -/
def ppParent (p : PPath) : PPath :=
  ⟨p.root, p.segs.dropLast⟩

/-- `PurePosixPath./`: an absolute right operand replaces the left one. -/
def ppJoin (p q : PPath) : PPath :=
  if q.root ≠ 0 then q else ⟨p.root, p.segs ++ q.segs⟩

/-- `PurePosixPath.parts`: the root marker string, if any, then the segments. -/
def ppParts (p : PPath) : List String :=
  (if p.root = 0 then [] else if p.root = 2 then ["//"] else ["/"]) ++ p.segs

/-- `PurePosixPath(s).name`: the last retained segment, `''` when none. -/
def ppName (s : String) : String :=
  ((ppParse s).segs.getLast?).getD ""

/-- The `..`/`.` collapsing loop shared by both `normalize_path`
implementations (`detect_no_toc.py` lines 58-64, `check_copyright_toc.py`
lines 18-24): `..` pops the last output segment when there is one, `.` is
dropped, every other segment is pushed. -/
def collapse : List String → List String → List String
  | [], acc => acc
  | p :: ps, acc =>
    if p = ".." then collapse ps (if acc = [] then acc else acc.dropLast)
    else if p = "." then collapse ps acc
    else collapse ps (acc ++ [p])

namespace DetectNoToc

/-- `detect_no_toc.resolve_href` (lines 46-50): percent-decode and join under
the package directory without collapsing. -/
def resolve_href (opf_dir href : String) : String :=
  let decoded := unquote href
  if opf_dir = "" then ppAsPosix (ppParse decoded)
  else ppAsPosix (ppJoin (ppParse opf_dir) (ppParse decoded))

/-- `detect_no_toc.normalize_path` (lines 52-65): percent-decode, resolve
against the base's parent directory and collapse `..`/`.` segments. -/
def normalize_path (base_path href : String) : String :=
  let decoded := unquote href
  if base_path = "" then ppAsPosix (ppParse decoded)
  else
    let resolved := ppAsPosix (ppJoin (ppParent (ppParse base_path)) (ppParse decoded))
    joinSlash (collapse (ppParts (ppParse resolved)) [])

/-- `detect_no_toc.strip_fragment` (lines 67-68): `href.split('#', 1)[0]`,
i.e. the prefix before the first `#`. -/
def strip_fragment (href : String) : String :=
  String.mk (href.toList.takeWhile (fun c => c ≠ '#'))

end DetectNoToc

namespace CheckCopyrightToc

/-- `check_copyright_toc.normalize_path` (lines 10-25): same as the
`detect_no_toc` resolver except that a percent-decoded href that is exactly
an archive member name is returned directly. -/
def normalize_path (base_path href : String) (namelist : List String) : String :=
  let decoded := unquote href
  if decoded ∈ namelist then decoded
  else if base_path = "" then ppAsPosix (ppParse decoded)
  else
    let resolved := ppAsPosix (ppJoin (ppParent (ppParse base_path)) (ppParse decoded))
    joinSlash (collapse (ppParts (ppParse resolved)) [])

/-- `check_copyright_toc.strip_fragment` (lines 27-28): identical to the
`detect_no_toc` version. -/
def strip_fragment (href : String) : String :=
  String.mk (href.toList.takeWhile (fun c => c ≠ '#'))

end CheckCopyrightToc

/-- A manifest item as built by `parse_opf` in both scripts: href,
media type (possibly absent) and the raw `properties` string. -/
structure ManifestItem where
  href : String
  media_type : Option String
  properties : String
deriving DecidableEq, Repr

/-- A TOC entry `{href, text, source}` as produced by `extract_nav_entries`
and `extract_ncx_entries` in `detect_no_toc.py`. -/
structure TocEntry where
  href : String
  text : String
  source : String
deriving DecidableEq, Repr

/-- Result record of `detect_no_toc.analyze_toc_structure`. -/
structure TocAnalysis where
  has_toc : Bool
  content_entries : Nat
  unique_targets : Nat
  single_file_target : Option String
deriving DecidableEq, Repr

namespace DetectNoToc

/-- The `boilerplate_keywords` set of `analyze_toc_structure`
(`detect_no_toc.py` lines 204-209). -/
def boilerplate_keywords : List String :=
  ["cover", "title", "title page", "copyright", "table of contents",
   "toc", "contents", "frontmatter", "front matter", "titlepage",
   "dedication", "epigraph", "about the author", "also by",
   "books by", "acknowledgments", "acknowledgements"]

/-- The per-entry filter of `analyze_toc_structure` (lines 211-220): an
entry survives when its lower-cased stripped text neither is a boilerplate
keyword nor contains `cover`/`title page`/`copyright`, its resolved target's
filename contains none of `cover`/`title`/`copyright`/`toc`, and the
resolved target is one of the content files. -/
def is_content_entry (content_files : List String) (entry : TocEntry) : Bool :=
  let text := stripStr (lowerStr entry.text)
  let base_href := strip_fragment entry.href
  let normalized := normalize_path entry.source base_href
  let filename := lowerStr (ppName normalized)
  let is_boilerplate_text :=
    decide (text ∈ boilerplate_keywords)
      || (["cover", "title page", "copyright"].any (fun k => containsSub text k))
  let is_boilerplate_file :=
    ["cover", "title", "copyright", "toc"].any (fun k => containsSub filename k)
  let is_in_content := decide (normalized ∈ content_files)
  !is_boilerplate_text && !is_boilerplate_file && is_in_content

/-- First-occurrence deduplication, modelling the growth of the Python
`set` `unique_targets` (its cardinality is this list's length). -/
def dedup (l : List String) : List String :=
  l.foldl (fun acc x => if x ∈ acc then acc else acc ++ [x]) []

/-- `detect_no_toc.analyze_toc_structure` (lines 196-235).  The `z`
parameter of the source is unused in its body and is omitted here. -/
def analyze_toc_structure (toc_entries : List TocEntry) (content_files : List String) :
    TocAnalysis :=
  if toc_entries = [] then ⟨false, 0, 0, none⟩
  else
    let content_entries := toc_entries.filter (is_content_entry content_files)
    let unique_targets :=
      dedup ((content_entries.map
        (fun e => normalize_path e.source (strip_fragment e.href))).filter
          (fun t => decide (t ∈ content_files)))
    ⟨true, content_entries.length, unique_targets.length,
      if unique_targets.length = 1 then unique_targets.head? else none⟩

/-- The verdict step of `analyze_epub_single_chapter`
(`detect_no_toc.py` lines 258-270): run `analyze_toc_structure` and turn it
into the list of reason codes. -/
def classify_toc (toc_entries : List TocEntry) (content_files : List String) :
    List String :=
  let a := analyze_toc_structure toc_entries content_files
  if !a.has_toc then ["no_toc"]
  else if a.content_entries = 0 then ["toc_has_no_content_entries"]
  else if a.content_entries = 1 then ["single_toc_entry"]
  else []

/-- `detect_no_toc.get_content_files` (lines 152-165): spine items, in
order, that resolve to an XHTML/HTML/XML file whose name is not
cover/title/copyright/toc boilerplate.  The `z` parameter of the source is
unused in its body and is omitted here; the manifest dict is an association
list (Python dict keys are unique, lookup is the first binding). -/
def get_content_files (manifest : List (String × ManifestItem)) (spine : List String)
    (opf_dir : String) : List String :=
  spine.filterMap (fun idref =>
    match manifest.lookup idref with
    | none => none
    | some item =>
      let href := resolve_href opf_dir item.href
      let lower_href := lowerStr href
      if [".xhtml", ".html", ".htm", ".xml"].any (fun suf => endsWith lower_href suf) then
        let filename := lowerStr (ppName href)
        if containsSub filename "cover" || containsSub filename "title"
            || containsSub filename "copyright" || containsSub filename "toc" then none
        else some href
      else none)

end DetectNoToc

namespace CheckCopyrightToc

/-- The scan loop of `check_copyright_toc.find_copyright_path` (lines
72-80): walk the scored documents keeping the best index, best score and
second-best score; the best is updated only on a strictly greater score. -/
def fcp_loop : List (String × ℚ) → Nat → Option Nat → ℚ → ℚ →
    Option Nat × ℚ × ℚ
  | [], _, best_index, best_score, second_score => (best_index, best_score, second_score)
  | d :: ds, i, best_index, best_score, second_score =>
    if best_score < d.2 then fcp_loop ds (i + 1) (some i) d.2 best_score
    else if second_score < d.2 then fcp_loop ds (i + 1) best_index best_score d.2
    else fcp_loop ds (i + 1) best_index best_score second_score

/-- `check_copyright_toc.find_copyright_path` (lines 65-85).  The scoring
collaborator `score_file` and the spine-path extraction live in
`check_copyright.py`, which is not part of this repository's sources, so
each spine XHTML document is given here as its path paired with its score,
and `CONFIDENCE_THRESHOLD` is the `threshold` parameter (the spec's
scenario uses 5).  The ambiguity ratio `1.5` is the exact rational `3/2`.
The final list indexing `xhtml_paths[best_index]` is guarded: whenever the
threshold is positive and reached, `best_index` is a valid index. -/
def find_copyright_path (docs : List (String × ℚ)) (threshold : ℚ) : Option String :=
  if docs = [] then none
  else
    let r := fcp_loop docs 0 none 0 0
    if r.2.1 < threshold then none
    else if 0 < r.2.1 ∧ 0 < r.2.2 ∧ r.2.1 < r.2.2 * (3 / 2 : ℚ) then none
    else match r.1 with
      | some i => (docs.get? i).map Prod.fst
      | none => none

/-- Erase the first occurrence of a value from a list of scores (the
multiset view of "remove one copy of the best"). -/
def eraseFirst (x : ℚ) : List ℚ → List ℚ
  | [] => []
  | y :: ys => if y = x then ys else y :: eraseFirst x ys

/-- Spec view (§4.6): the best score over the scored documents.  The
source's scan starts from `best_score = 0`, so the best is clamped below
at 0. -/
def specBest (scores : List ℚ) : ℚ :=
  scores.foldl max 0

/-- Spec view (§4.6): the second-best score — the best score after
removing one occurrence of the best, clamped below at 0 like the source's
`second_score = 0` start. -/
def specSecond (scores : List ℚ) : ℚ :=
  (eraseFirst (specBest scores) scores).foldl max 0

/-- `check_copyright_toc.hrefs_contain_path` (lines 140-147): some
`(href, source)` pair, with the fragment stripped and resolved against its
source, matches the candidate path segment-wise (`PurePosixPath.parts`). -/
def hrefs_contain_path (hrefs : List (String × String)) (copyright_path : String)
    (namelist : List String) : Bool :=
  hrefs.any (fun p =>
    ppParts (ppParse (normalize_path p.2 (strip_fragment p.1) namelist))
      == ppParts (ppParse copyright_path))

/-- The hit-collection step of `check_copyright_toc.analyze_epub` (lines
163-170): `"in ncx"` is appended when the legacy nav-map extraction
produced a non-`None`, non-empty list (Python truthiness) containing the
candidate; `"in human toc page"` when the human-TOC anchors contain it. -/
def copyright_hits (ncx_hrefs : Option (List (String × String)))
    (human_hrefs : List (String × String)) (copyright_path : String)
    (namelist : List String) : List String :=
  (match ncx_hrefs with
   | some l =>
     if l ≠ [] ∧ hrefs_contain_path l copyright_path namelist then ["in ncx"] else []
   | none => []) ++
  (if hrefs_contain_path human_hrefs copyright_path namelist
   then ["in human toc page"] else [])

end CheckCopyrightToc

/-- The fallback test of the navigation-map selection: the item's
media type, defaulted to `''` as in `item.get('media-type') or ''`, is the
legacy NCX type. -/
def is_ncx_item (p : String × ManifestItem) : Bool :=
  p.2.media_type.getD "" == "application/x-dtbncx+xml"

/-- The navigation-map selection shared verbatim by
`check_copyright_toc.extract_ncx_hrefs` (lines 88-97) and
`detect_no_toc.extract_ncx_entries` (lines 111-120): the spine's `toc`
attribute when it is truthy (non-`None`, non-empty) and present in the
manifest, else the first manifest item whose media type is
`application/x-dtbncx+xml`.  It returns the chosen id with its item, so the
subsequent `manifest[ncx_id]` lookup of the source is total. -/
def choose_ncx (manifest : List (String × ManifestItem)) (spine_toc : Option String) :
    Option (String × ManifestItem) :=
  let fallback := manifest.find? is_ncx_item
  match spine_toc with
  | some t =>
    if t ≠ "" then
      match manifest.lookup t with
      | some item => some (t, item)
      | none => fallback
    else fallback
  | none => fallback

/-- A `navPoint` of a legacy navigation map, as read by
`detect_no_toc.extract_ncx_entries`: its first nested label text (absent
when there is no `text` element or its text is `None`) and its first nested
`content` element's `src` attribute. -/
structure NavPoint where
  text : Option String
  src : Option String

/-- The ZIP archive as the extraction functions observe it: the member-name
list and, per member, the outcome of the tolerant XML parse — the `src`
attributes of all `content` elements in document order (as collected by
`extract_ncx_hrefs`), and the `navPoint` records (as walked by
`extract_ncx_entries`).  An `Except.error` models the parser raising. -/
structure Zip where
  names : List String
  contentSrcs : String → Except String (List (Option String))
  navPoints : String → Except String (List NavPoint)

namespace CheckCopyrightToc

/-- `check_copyright_toc.extract_ncx_hrefs` (lines 87-113): returns the
`(src, ncx_href)` pairs for every `content` element with a truthy `src`,
or `None` together with a warning — `"NO NCX FOUND"` when no navigation
map is selected, a missing-member or parse-error message otherwise.
Its `resolve_href` is imported from `check_copyright.py`, which is not
among this repository's sources; per the spec (§4.1, one shared Href
Resolver) it is the same resolver as `detect_no_toc.resolve_href`, which
is used here. -/
def extract_ncx_hrefs (z : Zip) (opf_dir : String)
    (manifest : List (String × ManifestItem)) (spine_toc : Option String) :
    Option (List (String × String)) × Option String :=
  match choose_ncx manifest spine_toc with
  | none => (none, some "NO NCX FOUND")
  | some (ncx_id, item) =>
    if ncx_id = "" then (none, some "NO NCX FOUND")
    else
      let ncx_href := DetectNoToc.resolve_href opf_dir item.href
      if ncx_href ∉ z.names then
        (none, some ("NCX file missing from zip: " ++ ncx_href))
      else
        match z.contentSrcs ncx_href with
        | Except.error e => (none, some ("NCX parse error: " ++ e))
        | Except.ok srcs =>
          (some (srcs.filterMap (fun o =>
            match o with
            | some s => if s ≠ "" then some (s, ncx_href) else none
            | none => none)), none)

end CheckCopyrightToc

namespace DetectNoToc

/-- `detect_no_toc.extract_ncx_entries` (lines 110-150): the same selection
as `extract_ncx_hrefs`, but every failure (no navigation map, member
missing, parse error) yields the empty entry list, and each `navPoint`
with a truthy `src` becomes a `TocEntry` whose text is the stripped label
or `''`. -/
def extract_ncx_entries (z : Zip) (opf_dir : String)
    (manifest : List (String × ManifestItem)) (spine_toc : Option String) :
    List TocEntry :=
  match choose_ncx manifest spine_toc with
  | none => []
  | some (ncx_id, item) =>
    if ncx_id = "" then []
    else
      let ncx_href := resolve_href opf_dir item.href
      if ncx_href ∉ z.names then []
      else
        match z.navPoints ncx_href with
        | Except.error _ => []
        | Except.ok nps => nps.filterMap (fun np =>
            match np.src with
            | some s =>
              if s ≠ "" then
                some ⟨s, (np.text.map stripStr).getD "", ncx_href⟩
              else none
            | none => none)

/-- One input file as `detect_no_toc.analyze_epub_single_chapter` (lines
237-272) observes it.  Each collaborator that can raise is an `Except`
(opening the ZIP, `complex_scan.find_opf_path` — an external collaborator,
whose falsy result is `none` — and `parse_opf`, whose result is the
manifest, spine, package directory and spine `toc` attribute).
`extract_nav_entries` and `extract_ncx_entries` catch their internal parse
failures and cannot raise, so their outcomes are plain entry lists. -/
structure EpubInput where
  open_zip : Except String Unit
  find_opf : Except String (Option String)
  opf_data : Except String
    (List (String × ManifestItem) × List String × String × Option String)
  nav_entries : List TocEntry
  ncx_entries : List TocEntry

/-- The body of the `try` block of `analyze_epub_single_chapter`:
open the archive, locate the package document (`no_opf` when falsy),
parse it, derive the content files (`no_content_files` when empty),
prefer modern nav entries over legacy ones, and classify. -/
def run_single_chapter (inp : EpubInput) : Except String (List String) := do
  let _ ← inp.open_zip
  let opf ← inp.find_opf
  match opf with
  | none => return ["no_opf"]
  | some _ =>
    let (manifest, spine, opf_dir, _spine_toc) ← inp.opf_data
    let content_files := get_content_files manifest spine opf_dir
    if content_files = [] then return ["no_content_files"]
    else
      let toc_entries := if inp.nav_entries ≠ [] then inp.nav_entries else inp.ncx_entries
      return classify_toc toc_entries content_files

/-- `detect_no_toc.analyze_epub_single_chapter` (lines 237-272): the `try`
body with its `except Exception` boundary, which turns any raised error
into exactly `['error_parsing_epub']`. -/
def analyze_epub_single_chapter (inp : EpubInput) : List String :=
  match run_single_chapter inp with
  | Except.ok r => r
  | Except.error _ => ["error_parsing_epub"]

end DetectNoToc

end EpubCheck

open EpubCheck

/-! ## Theorems settling the claims -/

/-- C2, counterexample: the exact-match short-circuit does **not** hold for
`detect_no_toc.normalize_path`.  With base `OEBPS/toc.ncx` and href
`chapter1.xhtml`, whose decoded form is exactly an archive member name,
that implementation still resolves relative to the base's directory and
returns `OEBPS/chapter1.xhtml`, not the member name. -/
theorem C2_counterexample :
    unquote "chapter1.xhtml" ∈ ["chapter1.xhtml"] ∧
    DetectNoToc.normalize_path "OEBPS/toc.ncx" "chapter1.xhtml" ≠ unquote "chapter1.xhtml" := by
  decide

/-- C2, amended: for every base path and every href whose percent-decoded
form is exactly an archive member name, `check_copyright_toc.normalize_path`
— the implementation that receives the namelist — returns the decoded name
directly (exact-match short-circuit). -/
theorem C2_exact_match_short_circuit (base href : String) (namelist : List String)
    (h : unquote href ∈ namelist) :
    CheckCopyrightToc.normalize_path base href namelist = unquote href := by
  unfold CheckCopyrightToc.normalize_path
  rw [if_pos h]

/-- C2, witness for the amended theorem at a concrete archive. -/
theorem C2_witness :
    unquote "chapter1.xhtml" ∈ ["chapter1.xhtml", "OEBPS/content.opf"] ∧
    CheckCopyrightToc.normalize_path "OEBPS/toc.ncx" "chapter1.xhtml"
      ["chapter1.xhtml", "OEBPS/content.opf"] = unquote "chapter1.xhtml" :=
  ⟨by decide, C2_exact_match_short_circuit "OEBPS/toc.ncx" "chapter1.xhtml" _ (by decide)⟩

/-- C3, counterexample: `normalize_path` is **not** idempotent.  Resolving
`c.xhtml` against base `a/b.xhtml` yields the canonical `a/c.xhtml`, but
re-resolving that result against the same base prepends the base directory
again and yields `a/a/c.xhtml`. -/
theorem C3_counterexample :
    DetectNoToc.normalize_path "a/b.xhtml" "c.xhtml" = "a/c.xhtml" ∧
    DetectNoToc.normalize_path "a/b.xhtml" (DetectNoToc.normalize_path "a/b.xhtml" "c.xhtml") ≠
      DetectNoToc.normalize_path "a/b.xhtml" "c.xhtml" := by
  decide

/-- C3, amended: re-resolution returns an already-resolved path unchanged
when that path names an archive entry and contains no percent-escapes, via
the exact-match short-circuit of `check_copyright_toc.normalize_path`; for
a base with a directory component the resolver otherwise prepends the
directory again, as the counterexample shows. -/
theorem C3_idempotent_on_archive_members (base r : String) (namelist : List String)
    (h₁ : r ∈ namelist) (h₂ : unquote r = r) :
    CheckCopyrightToc.normalize_path base r namelist = r := by
  unfold CheckCopyrightToc.normalize_path
  rw [h₂, if_pos h₁]

/-- C3, witness for the amended theorem at a concrete archive. -/
theorem C3_witness :
    "a/c.xhtml" ∈ ["a/c.xhtml"] ∧ unquote "a/c.xhtml" = "a/c.xhtml" ∧
    CheckCopyrightToc.normalize_path "a/b.xhtml" "a/c.xhtml" ["a/c.xhtml"] = "a/c.xhtml" :=
  ⟨by decide, by decide,
    C3_idempotent_on_archive_members "a/b.xhtml" "a/c.xhtml" _ (by decide) (by decide)⟩

/-- C4, counterexample: a label that merely *contains* the boilerplate
keyword `contents` without equalling any listed keyword is **not**
discarded: the entry labelled `Table of Contents and More`, resolving into
the content set with a clean filename, survives the filter. -/
theorem C4_counterexample :
    containsSub (stripStr (lowerStr "Table of Contents and More")) "contents" = true ∧
    (∀ k ∈ DetectNoToc.boilerplate_keywords,
      stripStr (lowerStr "Table of Contents and More") ≠ k) ∧
    DetectNoToc.is_content_entry ["chapter2.xhtml"]
      ⟨"chapter2.xhtml", "Table of Contents and More", "nav.xhtml"⟩ = true := by
  decide

/-- C4, amended: an entry is discarded exactly when its lower-cased
stripped label *exactly equals* a keyword of the boilerplate list, or
contains one of only `cover`, `title page`, `copyright` as a substring
(not the other keywords), or its resolved target's filename contains one
of `cover`, `title`, `copyright`, `toc`, or its resolved target is not in
the content-file set. -/
theorem C4_discard_characterization (content_files : List String) (e : TocEntry) :
    DetectNoToc.is_content_entry content_files e = false ↔
      (stripStr (lowerStr e.text) ∈ DetectNoToc.boilerplate_keywords ∨
       containsSub (stripStr (lowerStr e.text)) "cover" = true ∨
       containsSub (stripStr (lowerStr e.text)) "title page" = true ∨
       containsSub (stripStr (lowerStr e.text)) "copyright" = true ∨
       containsSub (lowerStr (ppName (DetectNoToc.normalize_path e.source
         (DetectNoToc.strip_fragment e.href)))) "cover" = true ∨
       containsSub (lowerStr (ppName (DetectNoToc.normalize_path e.source
         (DetectNoToc.strip_fragment e.href)))) "title" = true ∨
       containsSub (lowerStr (ppName (DetectNoToc.normalize_path e.source
         (DetectNoToc.strip_fragment e.href)))) "copyright" = true ∨
       containsSub (lowerStr (ppName (DetectNoToc.normalize_path e.source
         (DetectNoToc.strip_fragment e.href)))) "toc" = true ∨
       DetectNoToc.normalize_path e.source (DetectNoToc.strip_fragment e.href) ∉
         content_files) := by
  unfold DetectNoToc.is_content_entry
  simp only [List.any_cons, List.any_nil, Bool.or_false, Bool.and_eq_false_iff,
    Bool.not_eq_false', Bool.or_eq_true, decide_eq_true_eq, Bool.not_eq_true,
    decide_eq_false_iff_not]
  tauto

/-- C9: href resolution and fragment stripping are total best-effort
canonicalization: a leading run of `..` segments with nothing left to pop
is dropped (a no-op, not an error) by the collapsing loop, so resolution
past the root succeeds, as on the spec's example; and `strip_fragment`
always returns a prefix of its input (the part before the first `#`),
identically in both scripts. -/
theorem C9_resolution_total_past_root_noop :
    (∀ (k : Nat) (rest : List String),
      collapse (List.replicate k ".." ++ rest) [] = collapse rest []) ∧
    DetectNoToc.normalize_path "a.xhtml" "../../b.xhtml" = "b.xhtml" ∧
    (∀ href : String, ∃ rest : String,
      DetectNoToc.strip_fragment href ++ rest = href ∧
      CheckCopyrightToc.strip_fragment href = DetectNoToc.strip_fragment href) := by
  refine ⟨?_, by decide, ?_⟩
  · intro k rest
    induction k with
    | zero => rfl
    | succ n ih =>
      rw [List.replicate_succ, List.cons_append]
      show collapse (".." :: (List.replicate n ".." ++ rest)) [] = collapse rest []
      rw [show collapse (".." :: (List.replicate n ".." ++ rest)) [] =
        collapse (List.replicate n ".." ++ rest) [] from by simp [collapse]]
      exact ih
  · intro href
    refine ⟨String.mk (href.toList.dropWhile (fun c => c ≠ '#')), ?_, rfl⟩
    show String.mk (href.toList.takeWhile (fun c => c ≠ '#')) ++
      String.mk (href.toList.dropWhile (fun c => c ≠ '#')) = href
    have h : String.mk (href.toList.takeWhile (fun c => c ≠ '#')) ++
        String.mk (href.toList.dropWhile (fun c => c ≠ '#')) =
        String.mk (href.toList.takeWhile (fun c => c ≠ '#') ++
          href.toList.dropWhile (fun c => c ≠ '#')) := rfl
    rw [h, List.takeWhile_append_dropWhile]
    rfl

/-- C1, counterexample: a package with 3 content documents whose TOC links
only the first document's path three times has `content_entries = 3` and
`unique_targets = 1`, yet the classifier issues **no** reason code: the
verdict step consults only `content_entries`, so `single_toc_entry` is not
issued for the claimed `unique_targets == 1` case. -/
theorem C1_counterexample :
    (DetectNoToc.analyze_toc_structure
      [⟨"ch1.xhtml", "Chapter 1", "nav.xhtml"⟩, ⟨"ch1.xhtml", "Chapter 1", "nav.xhtml"⟩,
       ⟨"ch1.xhtml", "Chapter 1", "nav.xhtml"⟩]
      ["ch1.xhtml", "ch2.xhtml", "ch3.xhtml"]).content_entries = 3 ∧
    (DetectNoToc.analyze_toc_structure
      [⟨"ch1.xhtml", "Chapter 1", "nav.xhtml"⟩, ⟨"ch1.xhtml", "Chapter 1", "nav.xhtml"⟩,
       ⟨"ch1.xhtml", "Chapter 1", "nav.xhtml"⟩]
      ["ch1.xhtml", "ch2.xhtml", "ch3.xhtml"]).unique_targets = 1 ∧
    DetectNoToc.analyze_epub_single_chapter
      ⟨Except.ok (), Except.ok (some "content.opf"),
       Except.ok ([("c1", ⟨"ch1.xhtml", some "application/xhtml+xml", ""⟩),
                   ("c2", ⟨"ch2.xhtml", some "application/xhtml+xml", ""⟩),
                   ("c3", ⟨"ch3.xhtml", some "application/xhtml+xml", ""⟩)],
                  ["c1", "c2", "c3"], "", none),
       [⟨"ch1.xhtml", "Chapter 1", "nav.xhtml"⟩, ⟨"ch1.xhtml", "Chapter 1", "nav.xhtml"⟩,
        ⟨"ch1.xhtml", "Chapter 1", "nav.xhtml"⟩], []⟩ ≠ ["single_toc_entry"] := by
  decide

/-- C1, amended: for a non-empty TOC-entry list, the classifier issues
`single_toc_entry` exactly when the surviving content entries number
exactly one; the distinct-target count is computed but not consulted by
the verdict step. -/
theorem C1_single_toc_entry_iff (toc_entries : List TocEntry) (content_files : List String)
    (h : toc_entries ≠ []) :
    DetectNoToc.classify_toc toc_entries content_files = ["single_toc_entry"] ↔
      (DetectNoToc.analyze_toc_structure toc_entries content_files).content_entries = 1 := by
  have ha : (DetectNoToc.analyze_toc_structure toc_entries content_files).has_toc = true := by
    unfold DetectNoToc.analyze_toc_structure
    rw [if_neg h]
  simp only [DetectNoToc.classify_toc, ha, Bool.not_true, Bool.false_eq_true, if_false]
  cases hce : (DetectNoToc.analyze_toc_structure toc_entries content_files).content_entries with
  | zero => decide
  | succ n =>
    cases n with
    | zero => decide
    | succ m => simp

/-- C1, witness for the amended theorem: a single surviving content entry
is flagged `single_toc_entry`. -/
theorem C1_witness :
    ([(⟨"ch1.xhtml", "Chapter 1", "nav.xhtml"⟩ : TocEntry)] ≠ ([] : List TocEntry)) ∧
    DetectNoToc.classify_toc [⟨"ch1.xhtml", "Chapter 1", "nav.xhtml"⟩] ["ch1.xhtml"] =
      ["single_toc_entry"] :=
  ⟨by decide, (C1_single_toc_entry_iff [⟨"ch1.xhtml", "Chapter 1", "nav.xhtml"⟩]
    ["ch1.xhtml"] (by decide)).mpr (by decide)⟩

/-- C6: the hit `"in ncx"` is reported exactly when some legacy nav-map
pair `(href, source)`, with everything from the first `#` stripped and the
remainder resolved against its source document, equals the copyright
candidate's path compared segment-wise; and concretely, a target stored
with a fragment, `content/chapter1.xhtml#top` sourced from
`OEBPS/toc.ncx`, matches the candidate `content/chapter1.xhtml`. -/
theorem C6_in_ncx_iff (ncx_hrefs : Option (List (String × String)))
    (human_hrefs : List (String × String)) (cand : String) (namelist : List String) :
    ("in ncx" ∈ CheckCopyrightToc.copyright_hits ncx_hrefs human_hrefs cand namelist ↔
      ∃ pr ∈ ncx_hrefs.getD [],
        ppParts (ppParse (CheckCopyrightToc.normalize_path pr.2
          (CheckCopyrightToc.strip_fragment pr.1) namelist)) = ppParts (ppParse cand)) ∧
    CheckCopyrightToc.copyright_hits
      (some [("content/chapter1.xhtml#top", "OEBPS/toc.ncx")]) []
      "content/chapter1.xhtml"
      ["content/chapter1.xhtml", "OEBPS/toc.ncx", "OEBPS/content.opf"] = ["in ncx"] := by
  refine ⟨?_, by decide⟩
  have hB : "in ncx" ∉
      (if CheckCopyrightToc.hrefs_contain_path human_hrefs cand namelist
       then ["in human toc page"] else ([] : List String)) := by
    split
    · intro hmem
      simp only [List.mem_singleton] at hmem
      exact absurd hmem (by decide)
    · simp
  unfold CheckCopyrightToc.copyright_hits
  rw [List.mem_append, or_iff_left hB]
  cases ncx_hrefs with
  | none => simp
  | some l =>
    have hiff : CheckCopyrightToc.hrefs_contain_path l cand namelist = true ↔
        ∃ pr ∈ l, ppParts (ppParse (CheckCopyrightToc.normalize_path pr.2
          (CheckCopyrightToc.strip_fragment pr.1) namelist)) = ppParts (ppParse cand) := by
      unfold CheckCopyrightToc.hrefs_contain_path
      simp only [List.any_eq_true, beq_iff_eq]
    by_cases hl : l = []
    · subst hl
      simp
    · simp only [Option.getD_some]
      by_cases hc : CheckCopyrightToc.hrefs_contain_path l cand namelist = true
      · rw [if_pos ⟨hl, hc⟩]
        exact iff_of_true (List.mem_singleton.mpr rfl) (hiff.mp hc)
      · rw [if_neg (fun hand => hc hand.2)]
        exact iff_of_false (List.not_mem_nil _) (fun hex => hc (hiff.mpr hex))

/-- The verdict step emits one of exactly four reason lists. -/
theorem classify_toc_mem_cases (toc_entries : List TocEntry) (content_files : List String) :
    DetectNoToc.classify_toc toc_entries content_files ∈
      [["no_toc"], ["toc_has_no_content_entries"], ["single_toc_entry"],
       ([] : List String)] := by
  unfold DetectNoToc.classify_toc
  dsimp only
  split
  · simp
  · split
    · simp
    · split
      · simp
      · simp

/-- Shape of the `try` body when the ZIP opens and no OPF is located. -/
theorem run_single_chapter_no_opf (hd : Except String
      (List (String × ManifestItem) × List String × String × Option String))
    (hnav hncx : List TocEntry) :
    DetectNoToc.run_single_chapter ⟨Except.ok (), Except.ok none, hd, hnav, hncx⟩ =
      Except.ok ["no_opf"] := rfl

/-- Shape of the `try` body when the ZIP opens, an OPF is located and it
parses: the verdict depends only on the content files and TOC entries. -/
theorem run_single_chapter_parsed (p : String) (m : List (String × ManifestItem))
    (s : List String) (d : String) (st : Option String) (hnav hncx : List TocEntry) :
    DetectNoToc.run_single_chapter
      ⟨Except.ok (), Except.ok (some p), Except.ok (m, s, d, st), hnav, hncx⟩ =
      (if DetectNoToc.get_content_files m s d = [] then Except.ok ["no_content_files"]
       else Except.ok (DetectNoToc.classify_toc (if hnav ≠ [] then hnav else hncx)
         (DetectNoToc.get_content_files m s d))) := rfl

/-- C8: `analyze_epub_single_chapter` never raises — its result is always
one of the reason lists; a located-package failure yields `['no_opf']`, an
empty content-file set yields `['no_content_files']`, and any error raised
by a collaborator during the file's analysis is caught at the file
boundary and yields exactly `['error_parsing_epub']`. -/
theorem C8_never_raises (inp : DetectNoToc.EpubInput) :
    (DetectNoToc.analyze_epub_single_chapter inp ∈
      [["no_opf"], ["no_content_files"], ["no_toc"], ["toc_has_no_content_entries"],
       ["single_toc_entry"], ([] : List String), ["error_parsing_epub"]]) ∧
    (∀ e, DetectNoToc.run_single_chapter inp = Except.error e →
      DetectNoToc.analyze_epub_single_chapter inp = ["error_parsing_epub"]) ∧
    (inp.open_zip = Except.ok () → inp.find_opf = Except.ok none →
      DetectNoToc.analyze_epub_single_chapter inp = ["no_opf"]) ∧
    (∀ p manifest spine opf_dir spine_toc,
      inp.open_zip = Except.ok () → inp.find_opf = Except.ok (some p) →
      inp.opf_data = Except.ok (manifest, spine, opf_dir, spine_toc) →
      DetectNoToc.get_content_files manifest spine opf_dir = [] →
      DetectNoToc.analyze_epub_single_chapter inp = ["no_content_files"]) := by
  obtain ⟨hz, hf, hd, hnav, hncx⟩ := inp
  refine ⟨?_, ?_, ?_, ?_⟩
  · rcases hz with e | u
    · have hv : DetectNoToc.analyze_epub_single_chapter
          ⟨Except.error e, hf, hd, hnav, hncx⟩ = ["error_parsing_epub"] := rfl
      rw [hv]
      simp
    · cases u
      rcases hf with e | opf
      · have hv : DetectNoToc.analyze_epub_single_chapter
            ⟨Except.ok (), Except.error e, hd, hnav, hncx⟩ = ["error_parsing_epub"] := rfl
        rw [hv]
        simp
      · rcases opf with _ | p
        · have hv : DetectNoToc.analyze_epub_single_chapter
              ⟨Except.ok (), Except.ok none, hd, hnav, hncx⟩ = ["no_opf"] := rfl
          rw [hv]
          simp
        · rcases hd with e | ⟨m, s, d, st⟩
          · have hv : DetectNoToc.analyze_epub_single_chapter
                ⟨Except.ok (), Except.ok (some p), Except.error e, hnav, hncx⟩ =
                ["error_parsing_epub"] := rfl
            rw [hv]
            simp
          · unfold DetectNoToc.analyze_epub_single_chapter
            rw [run_single_chapter_parsed]
            by_cases hcf : DetectNoToc.get_content_files m s d = []
            · rw [if_pos hcf]
              simp
            · rw [if_neg hcf]
              have := classify_toc_mem_cases (if hnav ≠ [] then hnav else hncx)
                (DetectNoToc.get_content_files m s d)
              simp only [List.mem_cons, List.not_mem_nil, or_false] at this ⊢
              rcases this with h | h | h | h <;> rw [h] <;> simp
  · intro e he
    unfold DetectNoToc.analyze_epub_single_chapter
    rw [he]
  · intro h₁ h₂
    cases h₁
    cases h₂
    rfl
  · intro p m s d st h₁ h₂ h₃ hcf
    cases h₁
    cases h₂
    cases h₃
    unfold DetectNoToc.analyze_epub_single_chapter
    rw [run_single_chapter_parsed, if_pos hcf]

/-- C8, witness: a file whose OPF cannot be located reports `['no_opf']`
even though its OPF parse step would raise. -/
theorem C8_witness :
    (⟨Except.ok (), Except.ok none, Except.error "bad zip", [], []⟩ :
      DetectNoToc.EpubInput).open_zip = Except.ok () ∧
    DetectNoToc.analyze_epub_single_chapter
      ⟨Except.ok (), Except.ok none, Except.error "bad zip", [], []⟩ = ["no_opf"] :=
  ⟨rfl, (C8_never_raises
    ⟨Except.ok (), Except.ok none, Except.error "bad zip", [], []⟩).2.2.1 rfl rfl⟩

/-! ### Fold/max helper lemmas for the copyright-locator loop -/

theorem le_foldl_max (l : List ℚ) (a : ℚ) : a ≤ l.foldl max a := by
  induction l generalizing a with
  | nil => exact le_refl a
  | cons x xs ih =>
    rw [List.foldl_cons]
    exact le_trans (le_max_left a x) (ih (max a x))

theorem mem_le_foldl_max (l : List ℚ) (a x : ℚ) (hx : x ∈ l) : x ≤ l.foldl max a := by
  induction l generalizing a with
  | nil => cases hx
  | cons y ys ih =>
    rw [List.foldl_cons]
    rcases List.mem_cons.mp hx with h | h
    · subst h
      exact le_trans (le_max_right a x) (le_foldl_max ys (max a x))
    · exact ih (max a y) h

theorem foldl_max_le (l : List ℚ) (a c : ℚ) (hl : ∀ x ∈ l, x ≤ c) (ha : a ≤ c) :
    l.foldl max a ≤ c := by
  induction l generalizing a with
  | nil => exact ha
  | cons y ys ih =>
    rw [List.foldl_cons]
    exact ih (max a y) (fun x hx => hl x (List.mem_cons_of_mem y hx))
      (max_le ha (hl y (List.mem_cons_self y ys)))

theorem mem_of_mem_eraseFirst (v x : ℚ) (l : List ℚ)
    (hx : x ∈ CheckCopyrightToc.eraseFirst v l) : x ∈ l := by
  induction l with
  | nil => cases hx
  | cons y ys ih =>
    unfold CheckCopyrightToc.eraseFirst at hx
    by_cases hy : y = v
    · rw [if_pos hy] at hx
      exact List.mem_cons_of_mem y hx
    · rw [if_neg hy] at hx
      rcases List.mem_cons.mp hx with h | h
      · exact h ▸ List.mem_cons_self y ys
      · exact List.mem_cons_of_mem y (ih h)

theorem mem_eraseFirst_of_two_positions (x : ℚ) (l : List ℚ) (i j : Nat) (hij : i ≠ j)
    (hi : l.get? i = some x) (hj : l.get? j = some x) :
    x ∈ CheckCopyrightToc.eraseFirst x l := by
  induction l generalizing i j with
  | nil => cases i <;> cases hi
  | cons y ys ih =>
    unfold CheckCopyrightToc.eraseFirst
    by_cases hy : y = x
    · rw [if_pos hy]
      rcases i with _ | i' <;> rcases j with _ | j'
      · exact absurd rfl hij
      · exact List.get?_mem hj
      · exact List.get?_mem hi
      · exact List.get?_mem hi
    · rw [if_neg hy]
      rcases i with _ | i'
      · exact absurd (Option.some.inj hi) hy
      · rcases j with _ | j'
        · exact absurd (Option.some.inj hj) hy
        · exact List.mem_cons_of_mem y
            (ih i' j' (fun h => hij (by rw [h])) hi hj)

theorem eraseFirst_cons_self (x : ℚ) (l : List ℚ) :
    CheckCopyrightToc.eraseFirst x (x :: l) = l := by
  show (if x = x then l else x :: CheckCopyrightToc.eraseFirst x l) = l
  rw [if_pos rfl]

theorem eraseFirst_cons_ne (x y : ℚ) (l : List ℚ) (h : y ≠ x) :
    CheckCopyrightToc.eraseFirst x (y :: l) = y :: CheckCopyrightToc.eraseFirst x l := by
  show (if y = x then l else y :: CheckCopyrightToc.eraseFirst x l) =
    y :: CheckCopyrightToc.eraseFirst x l
  rw [if_neg h]

/-- The scan loop's best score is the running maximum of the scores. -/
theorem fcp_loop_best (ds : List (String × ℚ)) (i : Nat) (bi : Option Nat) (b s : ℚ) :
    (CheckCopyrightToc.fcp_loop ds i bi b s).2.1 = (ds.map Prod.snd).foldl max b := by
  induction ds generalizing i bi b s with
  | nil => rfl
  | cons d ds ih =>
    unfold CheckCopyrightToc.fcp_loop
    rw [List.map_cons, List.foldl_cons]
    by_cases h1 : b < d.2
    · rw [if_pos h1, ih, max_eq_right (le_of_lt h1)]
    · rw [if_neg h1]
      have hmax : max b d.2 = b := max_eq_left (le_of_not_lt h1)
      by_cases h2 : s < d.2
      · rw [if_pos h2, ih, hmax]
      · rw [if_neg h2, ih, hmax]

/-- The scan loop's second score: starting from a state `s ≤ b`, it is the
maximum, seeded with `s`, of the multiset `b :: scores` with one occurrence
of its overall maximum removed. -/
theorem fcp_loop_second (ds : List (String × ℚ)) (i : Nat) (bi : Option Nat) (b s : ℚ)
    (hsb : s ≤ b) :
    (CheckCopyrightToc.fcp_loop ds i bi b s).2.2 =
      (CheckCopyrightToc.eraseFirst ((ds.map Prod.snd).foldl max b)
        (b :: ds.map Prod.snd)).foldl max s := by
  induction ds generalizing i bi b s with
  | nil =>
    show s = (CheckCopyrightToc.eraseFirst (List.foldl max b []) (b :: [])).foldl max s
    rw [List.foldl_nil, eraseFirst_cons_self]
    rfl
  | cons d ds ih =>
    unfold CheckCopyrightToc.fcp_loop
    rw [List.map_cons, List.foldl_cons]
    by_cases h1 : b < d.2
    · rw [if_pos h1, ih (i + 1) (some i) d.2 b (le_of_lt h1),
        max_eq_right (le_of_lt h1)]
      have hxM : d.2 ≤ (ds.map Prod.snd).foldl max d.2 := le_foldl_max _ _
      have hbM : b ≠ (ds.map Prod.snd).foldl max d.2 :=
        ne_of_lt (lt_of_lt_of_le h1 hxM)
      rw [eraseFirst_cons_ne _ _ _ hbM, List.foldl_cons, max_eq_right hsb]
    · rw [if_neg h1]
      have hxb : d.2 ≤ b := le_of_not_lt h1
      rw [max_eq_left hxb]
      by_cases h2 : s < d.2
      · rw [if_pos h2, ih (i + 1) bi b d.2 hxb]
        by_cases hM : (ds.map Prod.snd).foldl max b = b
        · rw [hM, eraseFirst_cons_self, eraseFirst_cons_self, List.foldl_cons,
            max_eq_right (le_of_lt h2)]
        · have hbM : b < (ds.map Prod.snd).foldl max b :=
            lt_of_le_of_ne (le_foldl_max _ _) (Ne.symm hM)
          have hb : b ≠ (ds.map Prod.snd).foldl max b := ne_of_lt hbM
          have hx : d.2 ≠ (ds.map Prod.snd).foldl max b :=
            ne_of_lt (lt_of_le_of_lt hxb hbM)
          have e1 : CheckCopyrightToc.eraseFirst ((ds.map Prod.snd).foldl max b)
              (b :: d.2 :: ds.map Prod.snd) =
              b :: d.2 :: CheckCopyrightToc.eraseFirst ((ds.map Prod.snd).foldl max b)
                (ds.map Prod.snd) := by
            rw [eraseFirst_cons_ne _ _ _ hb, eraseFirst_cons_ne _ _ _ hx]
          have e2 : CheckCopyrightToc.eraseFirst ((ds.map Prod.snd).foldl max b)
              (b :: ds.map Prod.snd) =
              b :: CheckCopyrightToc.eraseFirst ((ds.map Prod.snd).foldl max b)
                (ds.map Prod.snd) := eraseFirst_cons_ne _ _ _ hb
          rw [e2, e1, List.foldl_cons, List.foldl_cons, List.foldl_cons,
            max_eq_right hsb, max_eq_right hxb, max_eq_left hxb]
      · rw [if_neg h2, ih (i + 1) bi b s hsb]
        have hxs : d.2 ≤ s := le_of_not_lt h2
        by_cases hM : (ds.map Prod.snd).foldl max b = b
        · rw [hM, eraseFirst_cons_self, eraseFirst_cons_self, List.foldl_cons,
            max_eq_left hxs]
        · have hbM : b < (ds.map Prod.snd).foldl max b :=
            lt_of_le_of_ne (le_foldl_max _ _) (Ne.symm hM)
          have hb : b ≠ (ds.map Prod.snd).foldl max b := ne_of_lt hbM
          have hx : d.2 ≠ (ds.map Prod.snd).foldl max b :=
            ne_of_lt (lt_of_le_of_lt hxb hbM)
          have e1 : CheckCopyrightToc.eraseFirst ((ds.map Prod.snd).foldl max b)
              (b :: d.2 :: ds.map Prod.snd) =
              b :: d.2 :: CheckCopyrightToc.eraseFirst ((ds.map Prod.snd).foldl max b)
                (ds.map Prod.snd) := by
            rw [eraseFirst_cons_ne _ _ _ hb, eraseFirst_cons_ne _ _ _ hx]
          have e2 : CheckCopyrightToc.eraseFirst ((ds.map Prod.snd).foldl max b)
              (b :: ds.map Prod.snd) =
              b :: CheckCopyrightToc.eraseFirst ((ds.map Prod.snd).foldl max b)
                (ds.map Prod.snd) := eraseFirst_cons_ne _ _ _ hb
          rw [e2, e1, List.foldl_cons, List.foldl_cons, List.foldl_cons,
            max_eq_right hsb, max_eq_left hxb]

/-- Once the loop holds a best index it never drops it. -/
theorem fcp_loop_keeps_some (ds : List (String × ℚ)) (i j : Nat) (b s : ℚ) :
    (CheckCopyrightToc.fcp_loop ds i (some j) b s).1 ≠ none := by
  induction ds generalizing i j b s with
  | nil => exact Option.some_ne_none j
  | cons d ds ih =>
    unfold CheckCopyrightToc.fcp_loop
    by_cases h1 : b < d.2
    · rw [if_pos h1]
      exact ih (i + 1) i d.2 b
    · rw [if_neg h1]
      by_cases h2 : s < d.2
      · rw [if_pos h2]
        exact ih (i + 1) j b d.2
      · rw [if_neg h2]
        exact ih (i + 1) j b s

/-- If the loop never records an index, the best score is its seed. -/
theorem fcp_loop_none_best (ds : List (String × ℚ)) (i : Nat) (b s : ℚ)
    (h : (CheckCopyrightToc.fcp_loop ds i none b s).1 = none) :
    (CheckCopyrightToc.fcp_loop ds i none b s).2.1 = b := by
  induction ds generalizing i b s with
  | nil => rfl
  | cons d ds ih =>
    unfold CheckCopyrightToc.fcp_loop at h ⊢
    by_cases h1 : b < d.2
    · rw [if_pos h1] at h
      exact absurd h (fcp_loop_keeps_some ds (i + 1) i d.2 b)
    · rw [if_neg h1] at h ⊢
      by_cases h2 : s < d.2
      · rw [if_pos h2] at h ⊢
        exact ih (i + 1) b d.2 h
      · rw [if_neg h2] at h ⊢
        exact ih (i + 1) b s h

/-- The recorded best index always points at an entry of the original
document list scoring exactly the loop's best score. -/
theorem fcp_loop_index_score (ds : List (String × ℚ)) (i : Nat) (bi : Option Nat)
    (b s : ℚ) (docs : List (String × ℚ))
    (hbi : ∀ j, bi = some j → ∃ pr, docs.get? j = some pr ∧ pr.2 = b)
    (hsuf : ∀ k, ds.get? k = docs.get? (i + k)) :
    ∀ j, (CheckCopyrightToc.fcp_loop ds i bi b s).1 = some j →
      ∃ pr, docs.get? j = some pr ∧ pr.2 = (CheckCopyrightToc.fcp_loop ds i bi b s).2.1 := by
  induction ds generalizing i bi b s with
  | nil =>
    intro j hj
    exact hbi j hj
  | cons d ds ih =>
    have hd0 : docs.get? i = some d := by
      have h := hsuf 0
      rw [Nat.add_zero] at h
      exact h.symm
    have hsuf' : ∀ k, ds.get? k = docs.get? (i + 1 + k) := by
      intro k
      have h := hsuf (k + 1)
      rw [List.get?_cons_succ] at h
      rw [h]
      congr 1
      omega
    intro j hj
    unfold CheckCopyrightToc.fcp_loop at hj ⊢
    by_cases h1 : b < d.2
    · rw [if_pos h1] at hj ⊢
      refine ih (i + 1) (some i) d.2 b ?_ hsuf' j hj
      intro j' hj'
      exact ⟨d, by rw [← Option.some.inj hj']; exact hd0, rfl⟩
    · rw [if_neg h1] at hj ⊢
      by_cases h2 : s < d.2
      · rw [if_pos h2] at hj ⊢
        exact ih (i + 1) bi b d.2 hbi hsuf' j hj
      · rw [if_neg h2] at hj ⊢
        exact ih (i + 1) bi b s hbi hsuf' j hj

/-- The loop started from the source's initial state computes the spec's
best score. -/
theorem fcp_best_spec (docs : List (String × ℚ)) :
    (CheckCopyrightToc.fcp_loop docs 0 none 0 0).2.1 =
      CheckCopyrightToc.specBest (docs.map Prod.snd) :=
  fcp_loop_best docs 0 none 0 0

/-- The loop started from the source's initial state computes the spec's
second-best score. -/
theorem fcp_second_spec (docs : List (String × ℚ)) :
    (CheckCopyrightToc.fcp_loop docs 0 none 0 0).2.2 =
      CheckCopyrightToc.specSecond (docs.map Prod.snd) := by
  rw [fcp_loop_second docs 0 none 0 0 (le_refl 0)]
  unfold CheckCopyrightToc.specSecond CheckCopyrightToc.specBest
  by_cases hM : (docs.map Prod.snd).foldl max 0 = 0
  · rw [hM, eraseFirst_cons_self, hM]
    apply le_antisymm
    · exact le_foldl_max (CheckCopyrightToc.eraseFirst 0 (docs.map Prod.snd)) 0
    · exact foldl_max_le (CheckCopyrightToc.eraseFirst 0 (docs.map Prod.snd)) 0 0
        (fun x hx => by
          have hxs := mem_of_mem_eraseFirst 0 x (docs.map Prod.snd) hx
          have h := mem_le_foldl_max (docs.map Prod.snd) 0 x hxs
          rw [hM] at h
          exact h) (le_refl 0)
  · rw [eraseFirst_cons_ne _ _ _ (fun h => hM h.symm), List.foldl_cons, max_self]

/-- C5: `find_copyright_path` returns no candidate when the best score is
below the confidence threshold, none when both best and second-best are
positive with `best < second * 1.5`, and otherwise the path of the
best-scoring document; in particular scores 0, 2, 9 at threshold 5 elect
the third document, while 6 and 5 are ambiguous. -/
theorem C5_copyright_confidence (docs : List (String × ℚ)) (threshold : ℚ)
    (hθ : 0 < threshold) :
    (CheckCopyrightToc.specBest (docs.map Prod.snd) < threshold →
      CheckCopyrightToc.find_copyright_path docs threshold = none) ∧
    (0 < CheckCopyrightToc.specBest (docs.map Prod.snd) →
      0 < CheckCopyrightToc.specSecond (docs.map Prod.snd) →
      CheckCopyrightToc.specBest (docs.map Prod.snd) <
        CheckCopyrightToc.specSecond (docs.map Prod.snd) * (3 / 2) →
      CheckCopyrightToc.find_copyright_path docs threshold = none) ∧
    (threshold ≤ CheckCopyrightToc.specBest (docs.map Prod.snd) →
      ¬(0 < CheckCopyrightToc.specSecond (docs.map Prod.snd) ∧
        CheckCopyrightToc.specBest (docs.map Prod.snd) <
          CheckCopyrightToc.specSecond (docs.map Prod.snd) * (3 / 2)) →
      ∃ p, CheckCopyrightToc.find_copyright_path docs threshold = some p ∧
        ∃ i pr, docs.get? i = some pr ∧ pr.1 = p ∧
          pr.2 = CheckCopyrightToc.specBest (docs.map Prod.snd)) ∧
    CheckCopyrightToc.find_copyright_path
      [("a.xhtml", 0), ("b.xhtml", 2), ("c.xhtml", 9)] 5 = some "c.xhtml" ∧
    CheckCopyrightToc.find_copyright_path [("a.xhtml", 6), ("b.xhtml", 5)] 5 = none := by
  refine ⟨?_, ?_, ?_, ?_, ?_⟩
  · intro hb
    by_cases hd : docs = []
    · subst hd
      rfl
    · unfold CheckCopyrightToc.find_copyright_path
      rw [if_neg hd]
      dsimp only
      rw [fcp_best_spec, if_pos hb]
  · intro h1 h2 h3
    by_cases hd : docs = []
    · subst hd
      rfl
    · unfold CheckCopyrightToc.find_copyright_path
      rw [if_neg hd]
      dsimp only
      rw [fcp_best_spec, fcp_second_spec]
      by_cases hbt : CheckCopyrightToc.specBest (docs.map Prod.snd) < threshold
      · rw [if_pos hbt]
      · rw [if_neg hbt, if_pos ⟨h1, h2, h3⟩]
  · intro hbt hng
    have hd : docs ≠ [] := by
      intro h
      subst h
      rw [show CheckCopyrightToc.specBest (List.map Prod.snd
        ([] : List (String × ℚ))) = 0 from rfl] at hbt
      exact absurd (lt_of_lt_of_le hθ hbt) (lt_irrefl 0)
    unfold CheckCopyrightToc.find_copyright_path
    rw [if_neg hd]
    dsimp only
    rw [fcp_best_spec, fcp_second_spec]
    rw [if_neg (not_lt.mpr hbt), if_neg (fun hc => hng ⟨hc.2.1, hc.2.2⟩)]
    cases hbi : (CheckCopyrightToc.fcp_loop docs 0 none 0 0).1 with
    | none =>
      exfalso
      have h0 : (CheckCopyrightToc.fcp_loop docs 0 none 0 0).2.1 = 0 :=
        fcp_loop_none_best docs 0 0 0 hbi
      rw [fcp_best_spec] at h0
      rw [h0] at hbt
      exact absurd (lt_of_lt_of_le hθ hbt) (lt_irrefl 0)
    | some j =>
      obtain ⟨pr, hpr, hsc⟩ := fcp_loop_index_score docs 0 none 0 0 docs
        (fun j' hj' => by cases hj') (fun k => by rw [Nat.zero_add]) j hbi
      rw [fcp_best_spec] at hsc
      refine ⟨pr.1, ?_, j, pr, hpr, rfl, hsc⟩
      show (docs.get? j).map Prod.fst = some pr.1
      rw [hpr]
      rfl
  · norm_num [CheckCopyrightToc.find_copyright_path, CheckCopyrightToc.fcp_loop]
    intro h
    simp at h
  · norm_num [CheckCopyrightToc.find_copyright_path, CheckCopyrightToc.fcp_loop]

/-- C5, witness: scores 0, 2, 9 at the spec's threshold 5 elect the third
document. -/
theorem C5_witness :
    (0 : ℚ) < 5 ∧
    CheckCopyrightToc.find_copyright_path
      [("a.xhtml", 0), ("b.xhtml", 2), ("c.xhtml", 9)] 5 = some "c.xhtml" :=
  ⟨by norm_num, (C5_copyright_confidence
    [("a.xhtml", 0), ("b.xhtml", 2), ("c.xhtml", 9)] 5 (by norm_num)).2.2.2.1⟩

/-- C10: whenever the positive maximum score is attained at two distinct
positions, `find_copyright_path` returns no candidate at any threshold:
the best index is updated only on strictly greater scores, so the tie
leaves the second-best equal to the best and the ambiguity guard rejects
the result. -/
theorem C10_positive_tie_is_ambiguous (docs : List (String × ℚ)) (threshold : ℚ)
    (i j : Nat) (a c : String × ℚ) (hij : i ≠ j)
    (hi : docs.get? i = some a) (hj : docs.get? j = some c)
    (hac : a.2 = c.2) (hpos : 0 < a.2)
    (hmax : ∀ q ∈ docs, q.2 ≤ a.2) :
    CheckCopyrightToc.find_copyright_path docs threshold = none := by
  have hd : docs ≠ [] := by
    intro h
    subst h
    cases i <;> cases hi
  have hmem : a.2 ∈ docs.map Prod.snd :=
    List.mem_map_of_mem Prod.snd (List.get?_mem hi)
  have hM : CheckCopyrightToc.specBest (docs.map Prod.snd) = a.2 := by
    apply le_antisymm
    · exact foldl_max_le (docs.map Prod.snd) 0 a.2 (fun x hx => by
        obtain ⟨q, hq, rfl⟩ := List.mem_map.mp hx
        exact hmax q hq) (le_of_lt hpos)
    · exact mem_le_foldl_max (docs.map Prod.snd) 0 a.2 hmem
  have hsi : (docs.map Prod.snd).get? i = some a.2 := by
    rw [List.get?_map, hi]
    rfl
  have hsj : (docs.map Prod.snd).get? j = some a.2 := by
    rw [List.get?_map, hj, hac]
    rfl
  have hmemE : a.2 ∈ CheckCopyrightToc.eraseFirst a.2 (docs.map Prod.snd) :=
    mem_eraseFirst_of_two_positions a.2 (docs.map Prod.snd) i j hij hsi hsj
  have hS : a.2 ≤ CheckCopyrightToc.specSecond (docs.map Prod.snd) := by
    unfold CheckCopyrightToc.specSecond
    rw [hM]
    exact mem_le_foldl_max _ 0 a.2 hmemE
  unfold CheckCopyrightToc.find_copyright_path
  rw [if_neg hd]
  dsimp only
  rw [fcp_best_spec, fcp_second_spec]
  by_cases hbt : CheckCopyrightToc.specBest (docs.map Prod.snd) < threshold
  · rw [if_pos hbt]
  · rw [if_neg hbt]
    have hSpos : 0 < CheckCopyrightToc.specSecond (docs.map Prod.snd) :=
      lt_of_lt_of_le hpos hS
    have hcond : 0 < CheckCopyrightToc.specBest (docs.map Prod.snd) ∧
        0 < CheckCopyrightToc.specSecond (docs.map Prod.snd) ∧
        CheckCopyrightToc.specBest (docs.map Prod.snd) <
          CheckCopyrightToc.specSecond (docs.map Prod.snd) * (3 / 2) := by
      refine ⟨by rw [hM]; exact hpos, hSpos, ?_⟩
      have h1 : CheckCopyrightToc.specSecond (docs.map Prod.snd) <
          CheckCopyrightToc.specSecond (docs.map Prod.snd) * (3 / 2) := by
        have h2 := mul_lt_mul_of_pos_left (show (1 : ℚ) < 3 / 2 by norm_num) hSpos
        rw [mul_one] at h2
        exact h2
      calc CheckCopyrightToc.specBest (docs.map Prod.snd) = a.2 := hM
        _ ≤ CheckCopyrightToc.specSecond (docs.map Prod.snd) := hS
        _ < CheckCopyrightToc.specSecond (docs.map Prod.snd) * (3 / 2) := h1
    rw [if_pos hcond]

/-- C10, witness: two documents tied at positive score 7 yield no
candidate even at threshold 5. -/
theorem C10_witness :
    (0 : ℚ) < 7 ∧
    CheckCopyrightToc.find_copyright_path [("a.xhtml", (7 : ℚ)), ("b.xhtml", 7)] 5 = none :=
  ⟨by norm_num, C10_positive_tie_is_ambiguous [("a.xhtml", 7), ("b.xhtml", 7)] 5 0 1
    ("a.xhtml", 7) ("b.xhtml", 7) (by decide) rfl rfl rfl (by norm_num)
    (by intro q hq; fin_cases hq <;> norm_num)⟩

/-- `List.find?` finds exactly the first element satisfying the predicate:
the list splits into a prefix of failures, the hit, and a remainder. -/
theorem find?_eq_some_decomp {α : Type} (p : α → Bool) (l : List α) (a : α) :
    l.find? p = some a ↔
      ∃ pre post, l = pre ++ a :: post ∧ p a = true ∧ ∀ q ∈ pre, p q = false := by
  induction l with
  | nil =>
    simp only [List.find?_nil]
    constructor
    · intro h
      cases h
    · rintro ⟨pre, post, hl, _, _⟩
      exact absurd hl.symm (List.append_ne_nil_of_right_ne_nil pre (List.cons_ne_nil a post))
  | cons x xs ih =>
    by_cases hx : p x = true
    · rw [List.find?_cons_of_pos _ hx]
      constructor
      · intro h
        rw [← Option.some.inj h]
        exact ⟨[], xs, rfl, hx, by intro q hq; cases hq⟩
      · rintro ⟨pre, post, hl, hpa, hpre⟩
        cases pre with
        | nil =>
          rw [List.nil_append] at hl
          rw [(List.cons.injEq .. ▸ hl : x = a ∧ xs = post).1]
        | cons y ys =>
          rw [List.cons_append] at hl
          have hxy : x = y := (List.cons.injEq .. ▸ hl : x = y ∧ _).1
          have : p x = false := hxy ▸ hpre y (List.mem_cons_self y ys)
          rw [this] at hx
          cases hx
    · rw [List.find?_cons_of_neg _ hx, ih]
      constructor
      · rintro ⟨pre, post, hl, hpa, hpre⟩
        refine ⟨x :: pre, post, by rw [hl, List.cons_append], hpa, ?_⟩
        intro q hq
        rcases List.mem_cons.mp hq with h | h
        · rw [h]
          exact Bool.eq_false_iff.mpr hx
        · exact hpre q h
      · rintro ⟨pre, post, hl, hpa, hpre⟩
        cases pre with
        | nil =>
          rw [List.nil_append] at hl
          have hxa : x = a := (List.cons.injEq .. ▸ hl : x = a ∧ _).1
          exact absurd (hxa ▸ hpa) hx
        | cons y ys =>
          rw [List.cons_append] at hl
          obtain ⟨hxy, hxs⟩ := (List.cons.injEq .. ▸ hl : x = y ∧ xs = ys ++ a :: post)
          exact ⟨ys, post, hxs, hpa, fun q hq => hpre q (List.mem_cons_of_mem y hq)⟩

/-- C7: the legacy-TOC extractors select the navigation map as the spine's
declared `toc` id when that id is truthy and present in the manifest, else
as the first manifest item of the legacy NCX media type; and when no
navigation map exists at all, `extract_ncx_hrefs` reports the warning
`"NO NCX FOUND"` with no entry list while `extract_ncx_entries` yields the
empty entry list, neither failing. -/
theorem C7_ncx_selection (z : Zip) (opf_dir : String)
    (manifest : List (String × ManifestItem)) (spine_toc : Option String) :
    (∀ t item, spine_toc = some t → t ≠ "" → manifest.lookup t = some item →
      choose_ncx manifest spine_toc = some (t, item)) ∧
    ((spine_toc = none ∨ spine_toc = some "" ∨
        (∃ t, spine_toc = some t ∧ manifest.lookup t = none)) →
      ∀ sel, choose_ncx manifest spine_toc = some sel ↔
        ∃ pre post, manifest = pre ++ sel :: post ∧ is_ncx_item sel = true ∧
          ∀ q ∈ pre, is_ncx_item q = false) ∧
    ((spine_toc = none ∨ spine_toc = some "" ∨
        (∃ t, spine_toc = some t ∧ manifest.lookup t = none)) →
      (∀ q ∈ manifest, is_ncx_item q = false) →
      choose_ncx manifest spine_toc = none ∧
      CheckCopyrightToc.extract_ncx_hrefs z opf_dir manifest spine_toc =
        (none, some "NO NCX FOUND") ∧
      DetectNoToc.extract_ncx_entries z opf_dir manifest spine_toc = []) := by
  have hfall : ∀ hsp : spine_toc = none ∨ spine_toc = some "" ∨
      (∃ t, spine_toc = some t ∧ manifest.lookup t = none),
      choose_ncx manifest spine_toc = manifest.find? is_ncx_item := by
    intro hsp
    rcases hsp with h | h | ⟨t, h, hlk⟩
    · rw [h]
      rfl
    · rw [h]
      unfold choose_ncx
      dsimp only
      rw [if_neg (fun hne => hne rfl)]
    · rw [h]
      unfold choose_ncx
      dsimp only
      by_cases hne : t ≠ ""
      · rw [if_pos hne, hlk]
      · rw [if_neg hne]
  refine ⟨?_, ?_, ?_⟩
  · intro t item hst hne hlk
    rw [hst]
    unfold choose_ncx
    dsimp only
    rw [if_pos hne, hlk]
  · intro hsp sel
    rw [hfall hsp]
    exact find?_eq_some_decomp is_ncx_item manifest sel
  · intro hsp hfb
    have hnone : choose_ncx manifest spine_toc = none := by
      rw [hfall hsp]
      rw [List.find?_eq_none]
      intro x hx
      rw [hfb x hx]
      exact Bool.false_ne_true
    refine ⟨hnone, ?_, ?_⟩
    · unfold CheckCopyrightToc.extract_ncx_hrefs
      rw [hnone]
    · unfold DetectNoToc.extract_ncx_entries
      rw [hnone]

/-- C7, witness: the spine's declared `toc` id wins when present, and a
manifest with no NCX-typed item and no spine `toc` attribute reports
`"NO NCX FOUND"` and yields no entries. -/
theorem C7_witness :
    choose_ncx [("ncx", ⟨"toc.ncx", some "application/x-dtbncx+xml", ""⟩)] (some "ncx") =
      some ("ncx", ⟨"toc.ncx", some "application/x-dtbncx+xml", ""⟩) ∧
    (CheckCopyrightToc.extract_ncx_hrefs
        ⟨[], fun _ => Except.error "", fun _ => Except.error ""⟩ "OEBPS"
        [("a", ⟨"a.xhtml", some "application/xhtml+xml", ""⟩)] none =
      (none, some "NO NCX FOUND") ∧
     DetectNoToc.extract_ncx_entries
        ⟨[], fun _ => Except.error "", fun _ => Except.error ""⟩ "OEBPS"
        [("a", ⟨"a.xhtml", some "application/xhtml+xml", ""⟩)] none = []) :=
  ⟨(C7_ncx_selection ⟨[], fun _ => Except.error "", fun _ => Except.error ""⟩ "OEBPS"
      [("ncx", ⟨"toc.ncx", some "application/x-dtbncx+xml", ""⟩)] (some "ncx")).1
      "ncx" ⟨"toc.ncx", some "application/x-dtbncx+xml", ""⟩ rfl (by decide) (by decide),
   ((C7_ncx_selection ⟨[], fun _ => Except.error "", fun _ => Except.error ""⟩ "OEBPS"
      [("a", ⟨"a.xhtml", some "application/xhtml+xml", ""⟩)] none).2.2
      (Or.inl rfl) (by decide)).2⟩
